import Mathlib

/-!
Verification of the EML attachment extractor (src/EML附件提取器.py).

The pipeline is embedded shallowly: strings are `List Char` (paths) or
`String` (header text), byte payloads are `List Nat`, and the filesystem is
an explicit record of existing paths and file contents threaded through the
extraction functions.  Fallible parsing is an `Except` value supplied by the
caller, mirroring the fact that the Python code parses with the standard
library and catches every exception at the per-file boundary.
-/

namespace EmlExtractor

/-- The character class of the regex `[<>:"/\\|?*]` in `sanitize_filename`
(source line 278). -/
def illegalChars : List Char := ['<', '>', ':', '"', '/', '\\', '|', '?', '*']

/-- One step of `re.sub(illegal_chars, "_", filename)`: every character of
the class is replaced by a single underscore (source line 279). -/
def replaceIllegal (s : List Char) : List Char :=
  s.map fun c => if c ∈ illegalChars then '_' else c

/-- The character set of Python `str.strip(" .")`: space and dot
(source line 281).  Note: only the literal space character, not all
whitespace. -/
def stripSetChar (c : Char) : Bool := c == ' ' || c == '.'

/-- Python `s.strip(cut)`: remove leading and trailing characters belonging
to the cut set. -/
def pyStrip (cut : Char → Bool) (s : List Char) : List Char :=
  ((s.dropWhile cut).reverse.dropWhile cut).reverse

/-- The fallback name returned when sanitization empties the string
(source line 285), Chinese for "unnamed". -/
def placeholderName : List Char := ['未', '命', '名']

/-- Embedding of `EmlExtractorApp.sanitize_filename` (source lines 275-285):
replace the illegal characters by underscore, strip leading/trailing spaces
and dots, cut to 200 characters, and fall back to the placeholder when the
result is empty. -/
def sanitizeChars (s : List Char) : List Char :=
  let r1 := replaceIllegal s
  let r2 := pyStrip stripSetChar r1
  let r3 := if r2.length > 200 then r2.take 200 else r2
  if r3.isEmpty then placeholderName else r3

/-- String-level wrapper of `sanitize_filename`. -/
def sanitize_filename (s : String) : String := ⟨sanitizeChars s.data⟩

/-- Rendering of the sanitization step exactly as the specification words it:
the stripping phase removes leading/trailing WHITESPACE and dots (Python
`strip()` semantics on whitespace plus dots), rather than only the space
character.  Used to compare the spec's sentence against the code. -/
def sanitizeSpecWhitespace (s : List Char) : List Char :=
  let r1 := replaceIllegal s
  let r2 := pyStrip (fun c => c.isWhitespace || c == '.') r1
  let r3 := r2.take 200
  if r3.isEmpty then placeholderName else r3

/-- Recursive left-strip used by the amended spec-side pipeline, removing
leading space and dot characters. -/
def specStripLead : List Char → List Char
  | [] => []
  | c :: cs => if c = ' ' ∨ c = '.' then specStripLead cs else c :: cs

/-- The amended specification pipeline: replace the nine illegal characters
with an underscore, strip leading/trailing space and dot characters (other
whitespace is kept), truncate to 200 characters, and substitute the fixed
placeholder if empty.  Written independently of `sanitizeChars` so the two
can be compared. -/
def sanitizeAmendedSpec (s : List Char) : List Char :=
  let r1 := s.map fun c => if c ∈ illegalChars then '_' else c
  let r2 := (specStripLead (specStripLead r1).reverse).reverse
  let r3 := r2.take 200
  if r3 = [] then placeholderName else r3

/-! ### Decimal rendering of the collision counter

Python renders the counter with `str(counter)` (standard decimal digits).
The fuel argument makes the recursion structural so that concrete instances
reduce inside the kernel. -/

/-- One decimal digit as a character; only called with values below ten. -/
def digitChar : Nat → Char
  | 0 => '0' | 1 => '1' | 2 => '2' | 3 => '3' | 4 => '4'
  | 5 => '5' | 6 => '6' | 7 => '7' | 8 => '8' | 9 => '9'
  | _ => '0'

/-- Numeric value of a decimal digit character. -/
def digitVal (c : Char) : Nat := c.toNat - 48

/-- Fuel-driven decimal writer; any fuel above the argument is enough. -/
def decDigitsAux : Nat → Nat → List Char
  | 0, _ => []
  | fuel + 1, n =>
    if n < 10 then [digitChar n]
    else decDigitsAux fuel (n / 10) ++ [digitChar (n % 10)]

/-- Decimal digits of a natural number, matching Python `str(n)`. -/
def decDigits (n : Nat) : List Char := decDigitsAux (n + 1) n

/-- Reads a digit string back into a number; inverse of `decDigits`. -/
def valDigits (l : List Char) : Nat := l.foldl (fun a c => 10 * a + digitVal c) 0

/-! ### Path helpers mirroring `os.path` and `pathlib` -/

/-- Index of the last dot in a name, if any (Python `str.rfind` on a
name without separators). -/
def rfindDot : List Char → Option Nat
  | [] => none
  | c :: cs =>
    match rfindDot cs with
    | some i => some (i + 1)
    | none => if c = '.' then some 0 else none

/-- Embedding of `os.path.splitext` restricted to names that contain no
path separator (sanitized filenames never do): split at the last dot,
unless every character before that dot is itself a dot, in which case
there is no extension.  Used by the collision loop (source line 352). -/
def splitext (name : List Char) : List Char × List Char :=
  match rfindDot name with
  | none => (name, [])
  | some d =>
    if (name.take d).any (fun c => !(c == '.')) then (name.take d, name.drop d)
    else (name, [])

/-- Embedding of `pathlib.PurePath.suffix` for a bare name: the last-dot
tail, provided the dot is neither the first nor the last character.
Used by the classify-by-type branch (source line 342). -/
def pathSuffix (name : List Char) : List Char :=
  match rfindDot name with
  | none => []
  | some i => if 0 < i ∧ i < name.length - 1 then name.drop i else []

/-- Embedding of `pathlib.PurePath.stem` for a bare name: the name minus
its `pathSuffix`.  Used for the subject fallback `Path(eml_path).stem`
(source line 314). -/
def pathStem (name : List Char) : List Char :=
  match rfindDot name with
  | none => name
  | some i => if 0 < i ∧ i < name.length - 1 then name.take i else name

/-- Final component of a slash-separated path. -/
def baseName (p : List Char) : List Char :=
  (p.reverse.takeWhile (fun c => !(c == '/'))).reverse

/-! ### Header decoding

`decode_header` (source lines 287-301) walks the list produced by
`email.header.decode_header`: pairs of either already-decoded text or raw
bytes with an optional charset label.  The byte decoding itself happens in
the Python codec machinery; it is modelled here for the charsets the
theorems exercise: `ascii` and `utf-8` never raise under
`errors="replace"`, any other label raises `LookupError` (modelled as
`none`), which the source catches and answers with UTF-8 replace-decoding. -/

/-- The Unicode replacement character U+FFFD produced by
`errors="replace"`. -/
def replChar : Char := Char.ofNat 0xFFFD

/-- Model of `bytes.decode("ascii", errors="replace")`: bytes below 128
map to themselves, every other byte becomes the replacement character. -/
def asciiReplace (data : List Nat) : List Char :=
  data.map fun b => if b < 128 then Char.ofNat b else replChar

/-- Fuel-driven body of `utf8Replace`; every step consumes at least one
byte, so any fuel above the length of the input behaves identically. -/
def utf8ReplaceAux : Nat → List Nat → List Char
  | 0, _ => []
  | fuel + 1, l =>
    match l with
    | [] => []
    | b :: rest =>
      if b < 0x80 then Char.ofNat b :: utf8ReplaceAux fuel rest
      else if 0xC2 ≤ b ∧ b ≤ 0xDF then
        match rest with
        | b2 :: rest2 =>
          if 0x80 ≤ b2 ∧ b2 ≤ 0xBF then
            Char.ofNat ((b - 0xC0) * 64 + (b2 - 0x80)) :: utf8ReplaceAux fuel rest2
          else replChar :: utf8ReplaceAux fuel rest
        | [] => [replChar]
      else if 0xE0 ≤ b ∧ b ≤ 0xEF then
        match rest with
        | b2 :: b3 :: rest3 =>
          if (0x80 ≤ b2 ∧ b2 ≤ 0xBF) ∧ (0x80 ≤ b3 ∧ b3 ≤ 0xBF) ∧
              ¬(b = 0xE0 ∧ b2 < 0xA0) ∧ ¬(b = 0xED ∧ 0xA0 ≤ b2) then
            Char.ofNat ((b - 0xE0) * 4096 + (b2 - 0x80) * 64 + (b3 - 0x80)) ::
              utf8ReplaceAux fuel rest3
          else replChar :: utf8ReplaceAux fuel (b2 :: b3 :: rest3)
        | rest' => replChar :: utf8ReplaceAux fuel rest'
      else if 0xF0 ≤ b ∧ b ≤ 0xF4 then
        match rest with
        | b2 :: b3 :: b4 :: rest4 =>
          if (0x80 ≤ b2 ∧ b2 ≤ 0xBF) ∧ (0x80 ≤ b3 ∧ b3 ≤ 0xBF) ∧
              (0x80 ≤ b4 ∧ b4 ≤ 0xBF) ∧
              ¬(b = 0xF0 ∧ b2 < 0x90) ∧ ¬(b = 0xF4 ∧ 0x90 ≤ b2) then
            Char.ofNat ((b - 0xF0) * 262144 + (b2 - 0x80) * 4096 +
                (b3 - 0x80) * 64 + (b4 - 0x80)) :: utf8ReplaceAux fuel rest4
          else replChar :: utf8ReplaceAux fuel (b2 :: b3 :: b4 :: rest4)
        | rest' => replChar :: utf8ReplaceAux fuel rest'
      else replChar :: utf8ReplaceAux fuel rest

/-- Model of `bytes.decode("utf-8", errors="replace")`: standard UTF-8
decoding where an invalid or truncated sequence yields a replacement
character and decoding continues. -/
def utf8Replace (data : List Nat) : List Char := utf8ReplaceAux (data.length + 1) data

/-- Fuel-driven body of `utf8Valid`. -/
def utf8ValidAux : Nat → List Nat → Bool
  | 0, _ => true
  | fuel + 1, l =>
    match l with
    | [] => true
    | b :: rest =>
      if b < 0x80 then utf8ValidAux fuel rest
      else if 0xC2 ≤ b ∧ b ≤ 0xDF then
        match rest with
        | b2 :: rest2 => (decide (0x80 ≤ b2 ∧ b2 ≤ 0xBF)) && utf8ValidAux fuel rest2
        | [] => false
      else if 0xE0 ≤ b ∧ b ≤ 0xEF then
        match rest with
        | b2 :: b3 :: rest3 =>
          (decide ((0x80 ≤ b2 ∧ b2 ≤ 0xBF) ∧ (0x80 ≤ b3 ∧ b3 ≤ 0xBF) ∧
            ¬(b = 0xE0 ∧ b2 < 0xA0) ∧ ¬(b = 0xED ∧ 0xA0 ≤ b2))) &&
          utf8ValidAux fuel rest3
        | _ => false
      else if 0xF0 ≤ b ∧ b ≤ 0xF4 then
        match rest with
        | b2 :: b3 :: b4 :: rest4 =>
          (decide ((0x80 ≤ b2 ∧ b2 ≤ 0xBF) ∧ (0x80 ≤ b3 ∧ b3 ≤ 0xBF) ∧
            (0x80 ≤ b4 ∧ b4 ≤ 0xBF) ∧
            ¬(b = 0xF0 ∧ b2 < 0x90) ∧ ¬(b = 0xF4 ∧ 0x90 ≤ b2))) &&
          utf8ValidAux fuel rest4
        | _ => false
      else false

/-- Validity of a byte sequence as strict UTF-8 (no decoding errors);
mirrors the accepting paths of `utf8Replace`. -/
def utf8Valid (data : List Nat) : Bool := utf8ValidAux (data.length + 1) data

/-- String built from a character list. -/
def strOf (l : List Char) : String := ⟨l⟩

/-- Whether the model knows a charset label (the codec lookup succeeds). -/
def charsetKnown (c : String) : Bool := c = "ascii" ∨ c = "utf-8" ∨ c = "utf8"

/-- Model of `bytes.decode(charset, errors="replace")`: `none` models the
`LookupError` raised for an unknown charset label; a known charset never
raises under `errors="replace"` and substitutes replacement characters for
invalid bytes. -/
def pyDecodeReplace (c : String) (data : List Nat) : Option String :=
  if c = "ascii" then some (strOf (asciiReplace data))
  else if c = "utf-8" ∨ c = "utf8" then some (strOf (utf8Replace data))
  else none

/-- One element of the list returned by `email.header.decode_header`:
either already-decoded text, or raw bytes with an optional charset label. -/
inductive HeaderWord
  | text (s : String)
  | bytes (data : List Nat) (charset : Option String)
deriving DecidableEq

/-- Python `charset or "utf-8"` (source line 296): an absent or empty
charset label falls back to the UTF-8 label. -/
def effCharset : Option String → String
  | none => "utf-8"
  | some c => if c = "" then "utf-8" else c

/-- Decoding of one header word (the loop body of `decode_header`, source
lines 293-300): text is used as is; bytes are decoded with the declared
charset under `errors="replace"`, and when that lookup fails the source
falls back to UTF-8 replace-decoding. -/
def decodeWord : HeaderWord → String
  | .text s => s
  | .bytes data cs =>
    match pyDecodeReplace (effCharset cs) data with
    | some s => s
    | none => strOf (utf8Replace data)

/-- Embedding of `EmlExtractorApp.decode_header` (source lines 287-301):
an absent header yields the empty string; otherwise the decoded words are
accumulated left to right by string concatenation. -/
def decode_header : Option (List HeaderWord) → String
  | none => ""
  | some parts => parts.foldl (fun acc w => acc ++ decodeWord w) ""

/-- Word decoding exactly as the specification words it: a known charset
whose bytes are VALID for it decodes with that charset; an unknown charset
or bytes invalid for the declared charset fall back to UTF-8
replace-decoding.  Used to compare the spec's sentence against the code. -/
def decodeWordSpec : HeaderWord → String
  | .text s => s
  | .bytes data cs =>
    let c := effCharset cs
    let valid := if c = "ascii" then data.all (· < 128) else utf8Valid data
    if charsetKnown c ∧ valid then (pyDecodeReplace c data).getD ""
    else strOf (utf8Replace data)

/-! ### Filesystem model

The filesystem is explicit state: `entries` lists every existing path
(files and directories alike, which is what `Path.exists()` consults), and
`contents` records file payloads, most recent write first. -/

/-- Explicit filesystem state. -/
structure FS where
  entries : List (List Char)
  contents : List (List Char × List Nat)
deriving DecidableEq

/-- Ancestor paths of a slash-separated path: one entry per separator
position.  `mkdir(parents=True)` creates these as well. -/
def parentPaths (p : List Char) : List (List Char) :=
  (List.range p.length).filterMap fun i =>
    if p.get? i = some '/' then some (p.take i) else none

/-- Model of `Path.mkdir(parents=True, exist_ok=True)`: the directory and
its ancestors come into existence; repeating the call is harmless. -/
def mkdirp (fs : FS) (dir : List Char) : FS :=
  { fs with entries := dir :: parentPaths dir ++ fs.entries }

/-- Model of `open(path, "wb"); f.write(payload)`: the file now exists and
holds exactly the payload bytes. -/
def writeFile (fs : FS) (p : List Char) (data : List Nat) : FS :=
  { entries := p :: fs.entries, contents := (p, data) :: fs.contents }

/-- Content of the file at a path: the most recent write wins. -/
def fsRead : List (List Char × List Nat) → List Char → Option (List Nat)
  | [], _ => none
  | (q, d) :: rest, p => if p = q then some d else fsRead rest p

/-! ### Collision resolution (source lines 348-354) -/

/-- The path tried at step `k` of the collision loop: step 0 is
`output_dir / safe_filename`, step `k ≥ 1` splits off the extension and
tries `name_k` plus the extension. -/
def candidate (dir name : List Char) : Nat → List Char
  | 0 => dir ++ '/' :: name
  | k + 1 =>
    dir ++ '/' :: ((splitext name).1 ++ '_' :: (decDigits (k + 1) ++ (splitext name).2))

/-- Fuel-driven embedding of the `while output_path.exists()` loop: try the
candidates in order and return the first that does not exist.  The source
loop is unbounded; fuel `existing.length + 1` is provably enough because
the candidates are pairwise distinct. -/
def resolveGo (existing : List (List Char)) (dir name : List Char) : Nat → Nat → List Char
  | 0, k => candidate dir name k
  | fuel + 1, k =>
    if candidate dir name k ∈ existing then resolveGo existing dir name fuel (k + 1)
    else candidate dir name k

/-- The collision-free output path chosen for a filename in a directory. -/
def resolvePath (existing : List (List Char)) (dir name : List Char) : List Char :=
  resolveGo existing dir name (existing.length + 1) 0

/-! ### Message model and extraction pipeline -/

/-- A node of the parsed message as the extractor sees it, i.e. the values
the `email` accessors return under `policy.default`: the content
disposition, the (already RFC 2047-decoded) filename parameter, and the
transfer-decoded payload of `get_payload(decode=True)`. -/
structure MsgPart where
  disposition : Option String
  filename : Option String
  payload : Option (List Nat)
deriving DecidableEq

/-- A parsed message: the decoded subject header (absent when the header is
missing) and the parts in `msg.walk()` order. -/
structure Msg where
  subject : Option String
  parts : List MsgPart
deriving DecidableEq

/-- The two checkbox options of the extractor. -/
structure Options where
  createSubfolder : Bool
  classifyByType : Bool
deriving DecidableEq

/-- Running state of the attachment loop: the filesystem plus the paths
written so far in traversal order. -/
structure ExtractState where
  fs : FS
  written : List (List Char)
deriving DecidableEq

/-- Label directory for classify-by-type (source lines 342-343):
`Path(safe_filename).suffix.lower().lstrip(".")`, falling back to the fixed
label 其他 ("other") when empty. -/
def extLabel (safeName : List Char) : List Char :=
  let ext := ((pathSuffix safeName).map Char.toLower).dropWhile (fun c => c == '.')
  if ext.isEmpty then ['其', '他'] else ext

/-- Body of the `for part in msg.walk()` loop (source lines 327-360): only
parts with disposition "attachment", a non-empty filename and a non-empty
payload are written; the filename is header-decoded and sanitized, the
target directory optionally carries the extension label, and the collision
loop picks a fresh path. -/
def processPart (opts : Options) (baseDir : List Char) (st : ExtractState)
    (p : MsgPart) : ExtractState :=
  if p.disposition = some "attachment" then
    match p.filename with
    | none => st
    | some f =>
      if f = "" then st
      else
        let fname := decode_header (some [HeaderWord.text f])
        let safeFilename := sanitizeChars fname.data
        match p.payload with
        | none => st
        | some payload =>
          if payload = [] then st
          else
            let outputDir :=
              if opts.classifyByType then baseDir ++ '/' :: extLabel safeFilename
              else baseDir
            let fs2 := mkdirp st.fs outputDir
            let outPath := resolvePath fs2.entries outputDir safeFilename
            ⟨writeFile fs2 outPath payload, st.written ++ [outPath]⟩
  else st

/-- Subject used for the folder name (source lines 312-314): decode the
subject header (an absent header behaves as the empty string under
`msg.get("Subject", "")`) and fall back to the source file's stem when the
decoded subject is empty. -/
def effectiveSubject (emlPath : List Char) (msg : Msg) : String :=
  let subject := decode_header (some [HeaderWord.text (msg.subject.getD "")])
  if subject = "" then strOf (pathStem (baseName emlPath)) else subject

/-- Base output directory (source lines 316-322): the output root, extended
by the sanitized subject when the subfolder option is on. -/
def baseDirOf (opts : Options) (outputBaseDir emlPath : List Char) (msg : Msg) :
    List Char :=
  if opts.createSubfolder then
    outputBaseDir ++ '/' :: sanitizeChars (effectiveSubject emlPath msg).data
  else outputBaseDir

/-- Outcome of one input file: the written paths in traversal order, and
the error message if an exception was caught. -/
structure ExtractResult where
  writtenPaths : List (List Char)
  error : Option String
deriving DecidableEq

/-- Embedding of `EmlExtractorApp.extract_attachments` (source lines
303-365).  Parsing happens in the Python standard library, so the parse
outcome is the `Except` argument; on a parse failure the source's blanket
`except` returns an empty path list and the error text, leaving the
filesystem untouched.  On success the base directory is created and the
parts are traversed in order. -/
def extract_attachments (opts : Options) (emlPath outputBaseDir : List Char)
    (parsed : Except String Msg) (fs0 : FS) : ExtractResult × FS :=
  match parsed with
  | .error e => (⟨[], some e⟩, fs0)
  | .ok msg =>
    let baseDir := baseDirOf opts outputBaseDir emlPath msg
    let fs1 := mkdirp fs0 baseDir
    let st := msg.parts.foldl (processPart opts baseDir) ⟨fs1, []⟩
    (⟨st.written, none⟩, st.fs)

/-- Aggregates reported by the batch worker. -/
structure BatchSummary where
  results : List ExtractResult
  successCount : Nat
  errorCount : Nat
  totalAttachments : Nat
deriving DecidableEq

/-- Embedding of the loop of `EmlExtractorApp.extraction_worker` (source
lines 403-424), written as structural recursion over the ordered input
list: each file is processed in turn against the threaded filesystem; an
error bumps the failed count, a result with attachments bumps the success
count and the attachment total, and an attachment-free success bumps only
the success count. -/
def extraction_worker (opts : Options) (outputDir : List Char) (fs : FS) :
    List (List Char × Except String Msg) → BatchSummary × FS
  | [] => (⟨[], 0, 0, 0⟩, fs)
  | (emlPath, parsed) :: rest =>
    let step := extract_attachments opts emlPath outputDir parsed fs
    let res := step.1
    let tail := extraction_worker opts outputDir step.2 rest
    let s := tail.1
    if res.error.isSome then
      (⟨res :: s.results, s.successCount, s.errorCount + 1, s.totalAttachments⟩, tail.2)
    else if ¬ res.writtenPaths.isEmpty then
      (⟨res :: s.results, s.successCount + 1, s.errorCount,
        s.totalAttachments + res.writtenPaths.length⟩, tail.2)
    else
      (⟨res :: s.results, s.successCount + 1, s.errorCount, s.totalAttachments⟩, tail.2)

/-! ### Lemmas about sanitization -/

theorem specStripLead_eq (l : List Char) : specStripLead l = l.dropWhile stripSetChar := by
  induction l with
  | nil => rfl
  | cons c cs ih =>
    rw [List.dropWhile_cons]
    by_cases h1 : c = ' '
    · simp [specStripLead, stripSetChar, h1, ih]
    · by_cases h2 : c = '.'
      · simp [specStripLead, stripSetChar, h2, ih]
      · simp [specStripLead, stripSetChar, h1, h2, ih]

theorem pyStrip_subset (cut : Char → Bool) (l : List Char) : pyStrip cut l ⊆ l := by
  intro c hc
  unfold pyStrip at hc
  rw [List.mem_reverse] at hc
  have hc2 : c ∈ (l.dropWhile cut).reverse := (List.dropWhile_sublist cut).subset hc
  rw [List.mem_reverse] at hc2
  exact (List.dropWhile_sublist cut).subset hc2

theorem mem_replaceIllegal_not_illegal (s : List Char) :
    ∀ c ∈ replaceIllegal s, c ∉ illegalChars := by
  intro c hc
  unfold replaceIllegal at hc
  rw [List.mem_map] at hc
  obtain ⟨a, _, ha⟩ := hc
  by_cases h : a ∈ illegalChars
  · rw [if_pos h] at ha
    rw [← ha]
    decide
  · rw [if_neg h] at ha
    rw [← ha]
    exact h

theorem sanitizeChars_eq_take (s : List Char) :
    sanitizeChars s =
      if (pyStrip stripSetChar (replaceIllegal s)).take 200 = [] then placeholderName
      else (pyStrip stripSetChar (replaceIllegal s)).take 200 := by
  have h : (if (pyStrip stripSetChar (replaceIllegal s)).length > 200 then
        (pyStrip stripSetChar (replaceIllegal s)).take 200
        else pyStrip stripSetChar (replaceIllegal s)) =
      (pyStrip stripSetChar (replaceIllegal s)).take 200 := by
    split
    · rfl
    · next hle => rw [List.take_of_length_le (by omega)]
  unfold sanitizeChars
  dsimp only
  rw [h]
  simp [List.isEmpty_iff]

theorem sanitizeChars_not_illegal (s : List Char) :
    ∀ c ∈ sanitizeChars s, c ∉ illegalChars := by
  intro c hc
  rw [sanitizeChars_eq_take] at hc
  split at hc
  · simp only [placeholderName, List.mem_cons, List.not_mem_nil, or_false] at hc
    rcases hc with rfl | rfl | rfl <;> decide
  · exact mem_replaceIllegal_not_illegal s c (pyStrip_subset _ _ (List.take_subset _ _ hc))

theorem sanitizeChars_ne_nil (s : List Char) : sanitizeChars s ≠ [] := by
  rw [sanitizeChars_eq_take]
  split
  · decide
  · next h => exact h

theorem sanitizeChars_length_le (s : List Char) : (sanitizeChars s).length ≤ 200 := by
  rw [sanitizeChars_eq_take]
  split
  · decide
  · simp only [List.length_take]
    omega

theorem sanitizeChars_eq_amended (s : List Char) : sanitizeChars s = sanitizeAmendedSpec s := by
  rw [sanitizeChars_eq_take]
  unfold sanitizeAmendedSpec
  dsimp only
  rw [specStripLead_eq, specStripLead_eq]
  rfl

/-! ### Lemmas about the decimal counter and collision candidates -/

theorem digitVal_digitChar (n : Nat) (h : n < 10) : digitVal (digitChar n) = n := by
  interval_cases n <;> decide

theorem valDigits_append (l : List Char) (c : Char) :
    valDigits (l ++ [c]) = 10 * valDigits l + digitVal c := by
  unfold valDigits
  rw [List.foldl_append]
  rfl

theorem valDigits_decDigitsAux (fuel : Nat) :
    ∀ n, n < fuel → valDigits (decDigitsAux fuel n) = n := by
  induction fuel with
  | zero => intro n h; omega
  | succ fuel ih =>
    intro n h
    unfold decDigitsAux
    split
    · next h10 =>
      simp [valDigits, List.foldl, digitVal_digitChar n h10]
    · next h10 =>
      rw [valDigits_append]
      have hdiv : n / 10 < fuel := by
        have := Nat.div_lt_self (n := n) (by omega) (show 1 < 10 by omega)
        omega
      rw [ih (n / 10) hdiv, digitVal_digitChar (n % 10) (Nat.mod_lt _ (by omega))]
      omega

theorem valDigits_decDigits (n : Nat) : valDigits (decDigits n) = n :=
  valDigits_decDigitsAux (n + 1) n (by omega)

theorem decDigits_inj : Function.Injective decDigits := by
  intro a b h
  have h2 := congrArg valDigits h
  rwa [valDigits_decDigits, valDigits_decDigits] at h2

theorem decDigits_ne_nil (n : Nat) : decDigits n ≠ [] := by
  unfold decDigits decDigitsAux
  split
  · simp
  · simp

theorem splitext_append (name : List Char) :
    (splitext name).1 ++ (splitext name).2 = name := by
  unfold splitext
  split
  · simp
  · split
    · simp [List.take_append_drop]
    · simp

theorem candidate_zero (dir name : List Char) : candidate dir name 0 = dir ++ '/' :: name := rfl

theorem candidate_succ (dir name : List Char) (k : Nat) :
    candidate dir name (k + 1) =
      dir ++ '/' :: ((splitext name).1 ++ '_' :: (decDigits (k + 1) ++ (splitext name).2)) :=
  rfl

theorem candidate_succ_length (dir name : List Char) (k : Nat) :
    (candidate dir name (k + 1)).length =
      dir.length + 1 + name.length + 1 + (decDigits (k + 1)).length := by
  have hsplit := congrArg List.length (splitext_append name)
  rw [List.length_append] at hsplit
  rw [candidate_succ]
  simp only [List.length_append, List.length_cons]
  omega

theorem candidate_zero_ne_succ (dir name : List Char) (k : Nat) :
    candidate dir name 0 ≠ candidate dir name (k + 1) := by
  intro h
  have h0 := congrArg List.length h
  rw [candidate_succ_length, candidate_zero, List.length_append, List.length_cons] at h0
  have hd : (decDigits (k + 1)).length ≠ 0 := by
    simpa [List.length_eq_zero] using decDigits_ne_nil (k + 1)
  omega

theorem candidate_inj (dir name : List Char) : Function.Injective (candidate dir name) := by
  intro j k h
  match j, k with
  | 0, 0 => rfl
  | 0, k + 1 => exact absurd h (candidate_zero_ne_succ dir name k)
  | j + 1, 0 => exact absurd h.symm (candidate_zero_ne_succ dir name j)
  | j + 1, k + 1 =>
    rw [candidate_succ, candidate_succ] at h
    have h1 := List.append_cancel_left h
    injection h1 with _ h2
    have h3 := List.append_cancel_left h2
    injection h3 with _ h4
    have h5 := List.append_cancel_right h4
    have h6 := decDigits_inj h5
    omega

theorem exists_candidate_not_mem (existing : List (List Char)) (dir name : List Char) :
    ∃ j, j < existing.length + 1 ∧ candidate dir name j ∉ existing := by
  by_contra hall
  push_neg at hall
  have hnodup : ((List.range (existing.length + 1)).map (candidate dir name)).Nodup :=
    (List.nodup_range _).map (candidate_inj dir name)
  have hsub : (List.range (existing.length + 1)).map (candidate dir name) ⊆ existing := by
    intro x hx
    rw [List.mem_map] at hx
    obtain ⟨j, hj, rfl⟩ := hx
    exact hall j (List.mem_range.mp hj)
  have hle := (hnodup.subperm hsub).length_le
  simp [List.length_map, List.length_range] at hle

theorem resolveGo_not_mem (existing : List (List Char)) (dir name : List Char) :
    ∀ fuel k, (∃ j, j < fuel ∧ candidate dir name (k + j) ∉ existing) →
      resolveGo existing dir name fuel k ∉ existing := by
  intro fuel
  induction fuel with
  | zero =>
    intro k hex
    obtain ⟨j, hj, _⟩ := hex
    omega
  | succ fuel ih =>
    intro k hex
    obtain ⟨j, hj, hfree⟩ := hex
    unfold resolveGo
    split
    · next hmem =>
      rcases j with _ | j'
      · rw [Nat.add_zero] at hfree
        exact absurd hmem hfree
      · refine ih (k + 1) ⟨j', by omega, ?_⟩
        rw [show k + 1 + j' = k + (j' + 1) from by omega]
        exact hfree
    · next hmem => exact hmem

theorem resolvePath_not_mem (existing : List (List Char)) (dir name : List Char) :
    resolvePath existing dir name ∉ existing := by
  obtain ⟨j, hj, hfree⟩ := exists_candidate_not_mem existing dir name
  refine resolveGo_not_mem existing dir name (existing.length + 1) 0 ⟨j, hj, ?_⟩
  simpa using hfree

theorem candidate_shape (dir name : List Char) (k : Nat) :
    ∃ t, candidate dir name k = dir ++ '/' :: t := by
  match k with
  | 0 => exact ⟨name, rfl⟩
  | k + 1 => exact ⟨_, rfl⟩

theorem resolveGo_shape (existing : List (List Char)) (dir name : List Char) :
    ∀ fuel k, ∃ t, resolveGo existing dir name fuel k = dir ++ '/' :: t := by
  intro fuel
  induction fuel with
  | zero => intro k; exact candidate_shape dir name k
  | succ fuel ih =>
    intro k
    unfold resolveGo
    split
    · exact ih (k + 1)
    · exact candidate_shape dir name k

theorem resolvePath_shape (existing : List (List Char)) (dir name : List Char) :
    ∃ t, resolvePath existing dir name = dir ++ '/' :: t :=
  resolveGo_shape existing dir name (existing.length + 1) 0

/-! ### The per-part case analysis and the run invariant -/

/-- The payload of a part if and only if the part qualifies for writing:
disposition "attachment", non-empty filename, non-empty payload. -/
def qualPayload (q : MsgPart) : Option (List Nat) :=
  if q.disposition = some "attachment" then
    match q.filename with
    | none => none
    | some f =>
      if f = "" then none
      else
        match q.payload with
        | none => none
        | some payload => if payload = [] then none else some payload
  else none

/-- Payloads of the qualifying attachment parts, in traversal order. -/
def qualifying (parts : List MsgPart) : List (List Nat) := parts.filterMap qualPayload

/-- The directory a qualifying attachment with filename header `f` is
written into: the base directory, extended by the extension label of the
sanitized decoded filename when classify-by-type is on. -/
def targetDirOf (opts : Options) (base : List Char) (f : String) : List Char :=
  if opts.classifyByType then
    base ++ '/' :: extLabel (sanitizeChars (decode_header (some [HeaderWord.text f])).data)
  else base

theorem processPart_eq (opts : Options) (base : List Char) (st : ExtractState)
    (q : MsgPart) :
    (qualPayload q = none ∧ processPart opts base st q = st) ∨
    (∃ f payload, q.disposition = some "attachment" ∧ q.filename = some f ∧ f ≠ "" ∧
      q.payload = some payload ∧ payload ≠ [] ∧ qualPayload q = some payload ∧
      processPart opts base st q =
        ⟨writeFile (mkdirp st.fs (targetDirOf opts base f))
            (resolvePath (mkdirp st.fs (targetDirOf opts base f)).entries
              (targetDirOf opts base f)
              (sanitizeChars (decode_header (some [HeaderWord.text f])).data))
            payload,
          st.written ++
            [resolvePath (mkdirp st.fs (targetDirOf opts base f)).entries
              (targetDirOf opts base f)
              (sanitizeChars (decode_header (some [HeaderWord.text f])).data)]⟩) := by
  unfold processPart qualPayload
  by_cases h1 : q.disposition = some "attachment"
  · rw [if_pos h1, if_pos h1]
    cases hf : q.filename with
    | none => exact Or.inl ⟨rfl, rfl⟩
    | some f =>
      dsimp only
      by_cases h2 : f = ""
      · rw [if_pos h2, if_pos h2]
        exact Or.inl ⟨rfl, rfl⟩
      · rw [if_neg h2, if_neg h2]
        cases hp : q.payload with
        | none => exact Or.inl ⟨rfl, rfl⟩
        | some payload =>
          dsimp only
          by_cases h3 : payload = []
          · rw [if_pos h3, if_pos h3]
            exact Or.inl ⟨rfl, rfl⟩
          · rw [if_neg h3, if_neg h3]
            exact Or.inr ⟨f, payload, h1, rfl, h2, rfl, h3, rfl, rfl⟩
  · rw [if_neg h1, if_neg h1]
    exact Or.inl ⟨rfl, rfl⟩

/-- Invariant carried across the attachment loop: the written paths are
pairwise distinct, every written path exists on the filesystem, and the
i-th written file holds exactly the i-th qualifying payload. -/
def GoodRun (st : ExtractState) (qs : List (List Nat)) : Prop :=
  st.written.Nodup ∧
  (∀ p ∈ st.written, p ∈ st.fs.entries) ∧
  st.written.length = qs.length ∧
  ∀ i p d, st.written.get? i = some p → qs.get? i = some d →
    fsRead st.fs.contents p = some d

theorem mem_mkdirp_entries (fs : FS) (d x : List Char) (h : x ∈ fs.entries) :
    x ∈ (mkdirp fs d).entries := by
  simp only [mkdirp, List.mem_cons, List.mem_append]
  tauto

theorem mkdirp_contents (fs : FS) (d : List Char) : (mkdirp fs d).contents = fs.contents := rfl

theorem fsRead_cons_ne (rest : List (List Char × List Nat)) (q : List Char)
    (d : List Nat) (p : List Char) (h : p ≠ q) :
    fsRead ((q, d) :: rest) p = fsRead rest p := by
  simp [fsRead, h]

theorem fsRead_cons_self (rest : List (List Char × List Nat)) (q : List Char)
    (d : List Nat) : fsRead ((q, d) :: rest) q = some d := by
  simp [fsRead]

theorem processPart_goodRun (opts : Options) (base : List Char) (st : ExtractState)
    (q : MsgPart) (qs : List (List Nat)) (h : GoodRun st qs) :
    GoodRun (processPart opts base st q) (qs ++ (qualPayload q).toList) := by
  rcases processPart_eq opts base st q with ⟨hq, heq⟩ | ⟨f, payload, _, _, _, _, _, hq, heq⟩
  · rw [heq, hq]
    simpa using h
  · rw [heq, hq]
    obtain ⟨hnd, hsub, hlen, hread⟩ := h
    have hrE : resolvePath (mkdirp st.fs (targetDirOf opts base f)).entries
        (targetDirOf opts base f)
        (sanitizeChars (decode_header (some [HeaderWord.text f])).data) ∉
        (mkdirp st.fs (targetDirOf opts base f)).entries :=
      resolvePath_not_mem _ _ _
    have hrw : resolvePath (mkdirp st.fs (targetDirOf opts base f)).entries
        (targetDirOf opts base f)
        (sanitizeChars (decode_header (some [HeaderWord.text f])).data) ∉ st.written :=
      fun hw => hrE (mem_mkdirp_entries _ _ _ (hsub _ hw))
    refine ⟨?_, ?_, ?_, ?_⟩
    · exact hnd.append (List.nodup_singleton _)
        (fun a ha hb => by
          rw [List.mem_singleton] at hb
          subst hb
          exact hrw ha)
    · intro p hp
      rw [List.mem_append, List.mem_singleton] at hp
      rcases hp with hp | rfl
      · exact List.mem_cons_of_mem _ (mem_mkdirp_entries _ _ _ (hsub _ hp))
      · exact List.mem_cons_self _ _
    · simp [hlen]
    · intro i p d hw hd
      simp only [Option.toList_some] at hd
      by_cases hi : i < st.written.length
      · rw [List.get?_append hi] at hw
        rw [List.get?_append (by omega : i < qs.length)] at hd
        have hpmem : p ∈ st.written := List.get?_mem hw
        have hne : p ≠ resolvePath (mkdirp st.fs (targetDirOf opts base f)).entries
            (targetDirOf opts base f)
            (sanitizeChars (decode_header (some [HeaderWord.text f])).data) := by
          intro hcontra
          exact hrw (hcontra ▸ hpmem)
        show fsRead (writeFile (mkdirp st.fs (targetDirOf opts base f)) _ payload).contents
          p = some d
        unfold writeFile
        dsimp only
        rw [fsRead_cons_ne _ _ _ _ hne, mkdirp_contents]
        exact hread i p d hw hd
      · by_cases hieq : i = st.written.length
        · subst hieq
          rw [List.get?_concat_length] at hw
          rw [hlen, List.get?_concat_length] at hd
          obtain rfl := Option.some.inj hw
          obtain rfl := Option.some.inj hd
          exact fsRead_cons_self _ _ _
        · exfalso
          have hlen2 : (st.written ++
              [resolvePath (mkdirp st.fs (targetDirOf opts base f)).entries
                (targetDirOf opts base f)
                (sanitizeChars (decode_header (some [HeaderWord.text f])).data)]).length ≤ i := by
            simp only [List.length_append, List.length_singleton]
            omega
          rw [List.get?_eq_none.mpr hlen2] at hw
          exact Option.noConfusion hw

theorem foldl_goodRun (opts : Options) (base : List Char) :
    ∀ (l : List MsgPart) (st : ExtractState) (qs : List (List Nat)),
      GoodRun st qs →
      GoodRun (l.foldl (processPart opts base) st) (qs ++ qualifying l) := by
  intro l
  induction l with
  | nil =>
    intro st qs h
    simpa [qualifying] using h
  | cons q l ih =>
    intro st qs h
    have hsplit : qs ++ qualifying (q :: l) = (qs ++ (qualPayload q).toList) ++ qualifying l := by
      rw [List.append_assoc]
      congr 1
      unfold qualifying
      rw [List.filterMap_cons]
      cases hq : qualPayload q <;> simp
    rw [List.foldl_cons, hsplit]
    exact ih _ _ (processPart_goodRun opts base st q qs h)

theorem extract_ok_goodRun (opts : Options) (emlPath out : List Char) (msg : Msg) (fs0 : FS) :
    GoodRun ⟨(extract_attachments opts emlPath out (.ok msg) fs0).2,
             (extract_attachments opts emlPath out (.ok msg) fs0).1.writtenPaths⟩
      (qualifying msg.parts) := by
  have h0 : GoodRun ⟨mkdirp fs0 (baseDirOf opts out emlPath msg), []⟩ [] := by
    refine ⟨List.nodup_nil, ?_, rfl, ?_⟩
    · intro p hp
      exact absurd hp (List.not_mem_nil p)
    · intro i p d hw hd
      simp at hw
  have h1 := foldl_goodRun opts (baseDirOf opts out emlPath msg) msg.parts _ [] h0
  simp only [List.nil_append] at h1
  unfold extract_attachments
  dsimp only
  exact h1

/-! ### Lemmas about header decoding -/

theorem decode_header_text (f : String) : decode_header (some [HeaderWord.text f]) = f := by
  show ("" : String) ++ f = f
  exact String.empty_append f

theorem decode_header_join (ws : List HeaderWord) :
    decode_header (some ws) = String.join (ws.map decodeWord) := by
  unfold decode_header String.join
  rw [List.foldl_map]

theorem pyDecodeReplace_unknown (c : String) (data : List Nat)
    (h : charsetKnown c = false) : pyDecodeReplace c data = none := by
  unfold charsetKnown at h
  rw [decide_eq_false_iff_not] at h
  push_neg at h
  unfold pyDecodeReplace
  rw [if_neg h.1, if_neg (by tauto)]

theorem qualPayload_eq_some (q : MsgPart) (f : String) (payload : List Nat)
    (hdisp : q.disposition = some "attachment") (hf : q.filename = some f) (hfne : f ≠ "")
    (hp : q.payload = some payload) (hpne : payload ≠ []) :
    qualPayload q = some payload := by
  unfold qualPayload
  rw [if_pos hdisp, hf]
  dsimp only
  rw [if_neg hfne, hp]
  dsimp only
  rw [if_neg hpne]

theorem processPart_writes_targetDir (opts : Options) (base : List Char)
    (st : ExtractState) (q : MsgPart) (f : String) (payload : List Nat)
    (hdisp : q.disposition = some "attachment") (hf : q.filename = some f) (hfne : f ≠ "")
    (hp : q.payload = some payload) (hpne : payload ≠ []) :
    ∃ t, (processPart opts base st q).written =
      st.written ++ [targetDirOf opts base f ++ '/' :: t] := by
  rcases processPart_eq opts base st q with ⟨hq, _⟩ | ⟨f', payload', _, hf', _, _, _, _, heq⟩
  · rw [qualPayload_eq_some q f payload hdisp hf hfne hp hpne] at hq
    exact absurd hq (by simp)
  · have hff : f' = f := by
      rw [hf] at hf'
      exact (Option.some.inj hf').symm
    rw [hff] at heq
    obtain ⟨t, ht⟩ := resolvePath_shape
      (mkdirp st.fs (targetDirOf opts base f)).entries (targetDirOf opts base f)
      (sanitizeChars (decode_header (some [HeaderWord.text f])).data)
    refine ⟨t, ?_⟩
    rw [heq]
    dsimp only
    rw [ht]


/-! ### Concrete messages used by the claim scenarios -/

/-- Message with subject "Q4 Report" and one attachment report.pdf. -/
def msgQ4 : Msg := ⟨some "Q4 Report", [⟨some "attachment", some "report.pdf", some [1, 2, 3]⟩]⟩

/-- Message with two attachments carrying the same decoded filename. -/
def msgTwoSame : Msg :=
  ⟨some "S", [⟨some "attachment", some "report.pdf", some [1]⟩,
              ⟨some "attachment", some "report.pdf", some [2]⟩]⟩

/-- Message whose attachment filename has an illegal character inside its
extension. -/
def msgIllegalExt : Msg := ⟨some "S", [⟨some "attachment", some "doc.p?f", some [9]⟩]⟩

/-- Message whose attachment filename is a bare dot-led extension. -/
def msgDotLed : Msg := ⟨some "S", [⟨some "attachment", some ".txt", some [9]⟩]⟩

/-! ### Claim theorems -/

/-- C1, counterexample: the claim says sanitization strips leading/trailing
WHITESPACE (and dots), but `str.strip(" .")` in the source strips only the
space character: on the tab-only input the code keeps the tab while the
claimed pipeline would substitute the placeholder name. -/
theorem claim1_counterexample :
    sanitizeChars ['\t'] = ['\t'] ∧ sanitizeSpecWhitespace ['\t'] = placeholderName ∧
    sanitizeChars ['\t'] ≠ sanitizeSpecWhitespace ['\t'] := by
  decide

/-- C1, amended: sanitization replaces each of the nine illegal characters
with an underscore, strips leading/trailing SPACE and dot characters (other
whitespace is kept), truncates to 200 characters and substitutes the fixed
placeholder when empty; consequently the result contains none of the nine
characters, is non-empty, and has at most 200 characters. -/
theorem claim1_sanitize_properties (s : String) :
    sanitize_filename s = ⟨sanitizeAmendedSpec s.data⟩ ∧
    (∀ c ∈ (sanitize_filename s).data, c ∉ illegalChars) ∧
    sanitize_filename s ≠ "" ∧
    (sanitize_filename s).length ≤ 200 := by
  refine ⟨?_, ?_, ?_, ?_⟩
  · show String.mk (sanitizeChars s.data) = _
    rw [sanitizeChars_eq_amended]
  · intro c hc
    exact sanitizeChars_not_illegal s.data c hc
  · intro hcontra
    exact sanitizeChars_ne_nil s.data (congrArg String.data hcontra)
  · exact sanitizeChars_length_le s.data

/-- C1, witness: the amended sanitization theorem evaluated on the
scenario input of the specification. -/
theorem claim1_witness :
    sanitize_filename "a:b*c.txt" = "a_b_c.txt" ∧ sanitize_filename "a:b*c.txt" ≠ "" :=
  ⟨by decide, (claim1_sanitize_properties "a:b*c.txt").2.2.1⟩

/-- C2: a part with disposition "attachment" whose filename header decodes
to the empty string is skipped by the traversal: the loop body leaves the
state untouched (no file written, nothing counted, and the function is
total, so no error). -/
theorem claim2_skip_empty_filename (opts : Options) (base : List Char) (st : ExtractState)
    (q : MsgPart) (_hdisp : q.disposition = some "attachment")
    (hdec : decode_header (some [HeaderWord.text (q.filename.getD "")]) = "") :
    processPart opts base st q = st := by
  rw [decode_header_text] at hdec
  rcases processPart_eq opts base st q with ⟨_, heq⟩ | ⟨f, payload, _, hf, hne, _, _, _, _⟩
  · exact heq
  · exfalso
    rw [hf] at hdec
    simp only [Option.getD_some] at hdec
    exact hne hdec

/-- C2, witness: a concrete attachment part with an empty filename header
is skipped. -/
theorem claim2_witness :
    processPart ⟨true, true⟩ "/out".data ⟨⟨[], []⟩, []⟩
      ⟨some "attachment", some "", some [1]⟩ = ⟨⟨[], []⟩, []⟩ :=
  claim2_skip_empty_filename ⟨true, true⟩ "/out".data ⟨⟨[], []⟩, []⟩
    ⟨some "attachment", some "", some [1]⟩ (by decide) (by decide)

/-- C3, counterexample: the claim says bytes INVALID for the declared
charset fall back to UTF-8 decoding, but the source decodes with the
declared charset under errors="replace": for the bytes C3 A9 declared as
ascii the code yields two replacement characters, while the claimed
fallback would UTF-8-decode them to the single character U+00E9. -/
theorem claim3_counterexample :
    decodeWord (HeaderWord.bytes [195, 169] (some "ascii")) = strOf [replChar, replChar] ∧
    decodeWordSpec (HeaderWord.bytes [195, 169] (some "ascii")) = strOf [Char.ofNat 233] ∧
    decodeWord (HeaderWord.bytes [195, 169] (some "ascii")) ≠
      decodeWordSpec (HeaderWord.bytes [195, 169] (some "ascii")) := by
  decide

/-- C3, amended: header decoding is total (a Lean function), an absent
input yields the empty string, the decoded words are concatenated in order
with no separator and none is dropped, text words pass through, a word
whose declared charset is unknown falls back to UTF-8 replace-decoding, and
a word whose declared charset is known is decoded with that charset under
replacement semantics (not by a UTF-8 fallback). -/
theorem claim3_decode_header_total :
    decode_header none = "" ∧
    (∀ ws, decode_header (some ws) = String.join (ws.map decodeWord)) ∧
    (∀ s, decodeWord (HeaderWord.text s) = s) ∧
    (∀ data c, charsetKnown (effCharset c) = false →
      decodeWord (HeaderWord.bytes data c) = strOf (utf8Replace data)) ∧
    (∀ data c s', pyDecodeReplace (effCharset c) data = some s' →
      decodeWord (HeaderWord.bytes data c) = s') := by
  refine ⟨rfl, decode_header_join, fun s => rfl, ?_, ?_⟩
  · intro data c h
    unfold decodeWord
    dsimp only
    rw [pyDecodeReplace_unknown _ _ h]
  · intro data c s' h
    unfold decodeWord
    dsimp only
    rw [h]

/-- C3, witness: the fallback and declared-charset branches of the decoding
theorem evaluated at concrete words. -/
theorem claim3_witness :
    decodeWord (HeaderWord.bytes [233] (some "gb2312")) = strOf (utf8Replace [233]) ∧
    decodeWord (HeaderWord.bytes [72, 105] (some "ascii")) = "Hi" :=
  ⟨claim3_decode_header_total.2.2.2.1 [233] (some "gb2312") (by decide),
   claim3_decode_header_total.2.2.2.2 [72, 105] (some "ascii") "Hi" (by decide)⟩

/-- C4: the written paths of one extraction are pairwise distinct for every
input, and in the concrete run with two attachments of identical decoded
filename the second path carries the suffix _1 before the extension. -/
theorem claim4_nodup_written :
    (∀ (opts : Options) (emlPath out : List Char) (parsed : Except String Msg) (fs0 : FS),
      ((extract_attachments opts emlPath out parsed fs0).1.writtenPaths).Nodup) ∧
    (extract_attachments ⟨false, false⟩ "/in/m.eml".data "/out".data (.ok msgTwoSame)
        ⟨[], []⟩).1.writtenPaths = ["/out/report.pdf".data, "/out/report_1.pdf".data] := by
  constructor
  · intro opts emlPath out parsed fs0
    cases parsed with
    | error e => simp [extract_attachments]
    | ok msg =>
      obtain ⟨h1, -, -, -⟩ := extract_ok_goodRun opts emlPath out msg fs0
      exact h1
  · decide

/-- C5: a file whose bytes cannot be parsed yields a result with the error
set and no written paths, leaves the filesystem untouched, the batch
continues with the remaining files exactly as if processing had started
there, and the failed count increments by exactly one for that file. -/
theorem claim5_parse_failure (opts : Options) (out emlPath : List Char) (e : String)
    (rest : List (List Char × Except String Msg)) (fs : FS) :
    extract_attachments opts emlPath out (.error e) fs = (⟨[], some e⟩, fs) ∧
    extraction_worker opts out fs ((emlPath, .error e) :: rest) =
      (⟨⟨[], some e⟩ :: (extraction_worker opts out fs rest).1.results,
        (extraction_worker opts out fs rest).1.successCount,
        (extraction_worker opts out fs rest).1.errorCount + 1,
        (extraction_worker opts out fs rest).1.totalAttachments⟩,
       (extraction_worker opts out fs rest).2) := by
  exact ⟨rfl, rfl⟩

/-- C6: the batch summary reflects every input file exactly once: there is
one result per input in order, succeeded plus failed equals the number of
inputs, succeeded counts exactly the error-free results (including
attachment-free ones), failed counts exactly the error results, and the
attachment total is the sum of the written-path counts of all results. -/
theorem extract_ok_error_none (opts : Options) (emlPath out : List Char) (msg : Msg)
    (fs : FS) : (extract_attachments opts emlPath out (.ok msg) fs).1.error = none := rfl

theorem error_writtenPaths_nil (opts : Options) (emlPath out : List Char)
    (parsed : Except String Msg) (fs : FS) (e : String)
    (h : (extract_attachments opts emlPath out parsed fs).1.error = some e) :
    (extract_attachments opts emlPath out parsed fs).1.writtenPaths = [] := by
  cases parsed with
  | error e2 => rfl
  | ok msg => exact Option.noConfusion ((extract_ok_error_none opts emlPath out msg fs).symm.trans h)

theorem claim6_batch_counts (opts : Options) (out : List Char) :
    ∀ (files : List (List Char × Except String Msg)) (fs : FS),
      ((extraction_worker opts out fs files).1.results).length = files.length ∧
      (extraction_worker opts out fs files).1.successCount +
        (extraction_worker opts out fs files).1.errorCount = files.length ∧
      (extraction_worker opts out fs files).1.successCount =
        (((extraction_worker opts out fs files).1.results).filter
          (fun r => r.error.isNone)).length ∧
      (extraction_worker opts out fs files).1.errorCount =
        (((extraction_worker opts out fs files).1.results).filter
          (fun r => r.error.isSome)).length ∧
      (extraction_worker opts out fs files).1.totalAttachments =
        (((extraction_worker opts out fs files).1.results).map
          (fun r => r.writtenPaths.length)).sum := by
  intro files
  induction files with
  | nil =>
    intro fs
    exact ⟨rfl, rfl, rfl, rfl, rfl⟩
  | cons file rest ih =>
    intro fs
    obtain ⟨f, parsed⟩ := file
    obtain ⟨ih1, ih2, ih3, ih4, ih5⟩ := ih ((extract_attachments opts f out parsed fs).2)
    unfold extraction_worker
    dsimp only
    rcases hres : (extract_attachments opts f out parsed fs).1.error with _ | e
    · rw [if_neg (by simp)]
      by_cases hemp : ((extract_attachments opts f out parsed fs).1.writtenPaths).isEmpty
      · rw [if_neg (by simp [hemp])]
        dsimp only
        have hlen0 : ((extract_attachments opts f out parsed fs).1.writtenPaths).length = 0 := by
          rw [List.isEmpty_iff.mp hemp]
          rfl
        refine ⟨by simp [ih1], by simp only [List.length_cons]; omega, ?_, ?_, ?_⟩
        · simp [List.filter_cons, hres, ih3]
        · simp [List.filter_cons, hres, ih4]
        · simp [List.map_cons, hlen0, ih5]
      · rw [if_pos hemp]
        dsimp only
        refine ⟨by simp [ih1], by simp only [List.length_cons]; omega, ?_, ?_, ?_⟩
        · simp [List.filter_cons, hres, ih3]
        · simp [List.filter_cons, hres, ih4]
        · simp [List.map_cons, ih5]
          omega
    · rw [if_pos (by simp)]
      dsimp only
      refine ⟨by simp [ih1], by simp only [List.length_cons]; omega, ?_, ?_, ?_⟩
      · simp [List.filter_cons, hres, ih3]
      · simp [List.filter_cons, hres, ih4]
      · simp [List.map_cons, hres, ih5, error_writtenPaths_nil opts f out parsed fs e hres]


/-- C7: when classify-by-type is on, every qualifying attachment is written
under targetDir = baseDir extended by the extension label of its sanitized
filename (the label embeds the fixed fallback 其他 for extension-less
names), and under baseDir itself otherwise; concretely, the Q4-Report
message with options (subfolder=false, classify=true) against /out writes
exactly /out/pdf/report.pdf. -/
theorem claim7_classify_target :
    (∀ (opts : Options) (base : List Char) (st : ExtractState) (q : MsgPart) (f : String)
        (payload : List Nat),
        q.disposition = some "attachment" → q.filename = some f → f ≠ "" →
        q.payload = some payload → payload ≠ [] →
        targetDirOf opts base f = (if opts.classifyByType then
            base ++ '/' :: extLabel (sanitizeChars (decode_header (some [HeaderWord.text f])).data)
          else base) ∧
        ∃ t, (processPart opts base st q).written =
          st.written ++ [targetDirOf opts base f ++ '/' :: t]) ∧
    (extract_attachments ⟨false, true⟩ "/in/m.eml".data "/out".data (.ok msgQ4)
        ⟨[], []⟩).1.writtenPaths = ["/out/pdf/report.pdf".data] := by
  constructor
  · intro opts base st q f payload hdisp hf hfne hp hpne
    exact ⟨rfl, processPart_writes_targetDir opts base st q f payload hdisp hf hfne hp hpne⟩
  · decide

/-- C7, witness: the target-directory theorem applied to a concrete
attachment part. -/
theorem claim7_witness :
    (processPart ⟨false, true⟩ "/out".data ⟨⟨[], []⟩, []⟩
        ⟨some "attachment", some "report.pdf", some [1]⟩).written =
      [] ++ [targetDirOf ⟨false, true⟩ "/out".data "report.pdf" ++ '/' :: "report.pdf".data] := by
  obtain ⟨t, ht⟩ := (claim7_classify_target.1 ⟨false, true⟩ "/out".data ⟨⟨[], []⟩, []⟩
    ⟨some "attachment", some "report.pdf", some [1]⟩ "report.pdf" [1]
    rfl rfl (by decide) rfl (by decide)).2
  decide

/-- C8: the pipeline pairs written files with qualifying attachment
payloads one-to-one in traversal order, and the content stored at the i-th
written path is byte-identical to the i-th qualifying payload: no
transformation is applied between extracting a payload and writing it. -/
theorem claim8_payload_roundtrip (opts : Options) (emlPath out : List Char) (msg : Msg)
    (fs0 : FS) :
    ((extract_attachments opts emlPath out (.ok msg) fs0).1.writtenPaths).length
      = (qualifying msg.parts).length ∧
    ∀ i p d,
      ((extract_attachments opts emlPath out (.ok msg) fs0).1.writtenPaths).get? i = some p →
      (qualifying msg.parts).get? i = some d →
      fsRead ((extract_attachments opts emlPath out (.ok msg) fs0).2).contents p = some d := by
  obtain ⟨-, -, h3, h4⟩ := extract_ok_goodRun opts emlPath out msg fs0
  exact ⟨h3, h4⟩

/-- C8, witness: in the Q4-Report run the file written at
/out/pdf/report.pdf holds exactly the attachment payload bytes. -/
theorem claim8_witness :
    fsRead ((extract_attachments ⟨false, true⟩ "/in/m.eml".data "/out".data (.ok msgQ4)
        ⟨[], []⟩).2).contents "/out/pdf/report.pdf".data = some [1, 2, 3] :=
  (claim8_payload_roundtrip ⟨false, true⟩ "/in/m.eml".data "/out".data msgQ4 ⟨[], []⟩).2
    0 "/out/pdf/report.pdf".data [1, 2, 3] (by decide) (by decide)

/-- C9: the classification label is computed from the SANITIZED filename:
for every qualifying attachment the subfolder label is the extension label
of the sanitized decoded filename; concretely doc.p?f sanitizes to doc.p_f
and is classified under p_f (the substituted extension — the raw name would
give a different label), and .txt sanitizes to txt, which has no extension
and goes to the fixed fallback label 其他. -/
theorem claim9_label_from_sanitized :
    (∀ (opts : Options) (base : List Char) (st : ExtractState) (q : MsgPart) (f : String)
        (payload : List Nat), opts.classifyByType = true →
        q.disposition = some "attachment" → q.filename = some f → f ≠ "" →
        q.payload = some payload → payload ≠ [] →
        ∃ t, (processPart opts base st q).written =
          st.written ++ [(base ++ '/' :: extLabel (sanitizeChars
            (decode_header (some [HeaderWord.text f])).data)) ++ '/' :: t]) ∧
    sanitizeChars "doc.p?f".data = "doc.p_f".data ∧
    extLabel (sanitizeChars "doc.p?f".data) = "p_f".data ∧
    extLabel "doc.p?f".data ≠ extLabel (sanitizeChars "doc.p?f".data) ∧
    sanitizeChars ".txt".data = "txt".data ∧
    extLabel (sanitizeChars ".txt".data) = ['其', '他'] ∧
    (extract_attachments ⟨false, true⟩ "/in/m.eml".data "/out".data (.ok msgIllegalExt)
        ⟨[], []⟩).1.writtenPaths = ["/out/p_f/doc.p_f".data] ∧
    (extract_attachments ⟨false, true⟩ "/in/m.eml".data "/out".data (.ok msgDotLed)
        ⟨[], []⟩).1.writtenPaths = ["/out/其他/txt".data] := by
  refine ⟨?_, by decide, by decide, by decide, by decide, by decide, by decide, by decide⟩
  intro opts base st q f payload hcls hdisp hf hfne hp hpne
  obtain ⟨t, ht⟩ := processPart_writes_targetDir opts base st q f payload hdisp hf hfne hp hpne
  refine ⟨t, ?_⟩
  rw [ht]
  unfold targetDirOf
  rw [if_pos hcls]

/-- C9, witness: the sanitized-label theorem applied to a concrete
attachment part with an illegal character in its extension. -/
theorem claim9_witness :
    (processPart ⟨false, true⟩ "/out".data ⟨⟨[], []⟩, []⟩
        ⟨some "attachment", some "doc.p?f", some [9]⟩).written =
      [] ++ [("/out".data ++ '/' :: extLabel (sanitizeChars
        (decode_header (some [HeaderWord.text "doc.p?f"])).data)) ++ '/' :: "doc.p_f".data] := by
  obtain ⟨t, ht⟩ := claim9_label_from_sanitized.1 ⟨false, true⟩ "/out".data ⟨⟨[], []⟩, []⟩
    ⟨some "attachment", some "doc.p?f", some [9]⟩ "doc.p?f" [9]
    rfl rfl rfl (by decide) rfl (by decide)
  decide

/-- C10: the fallback of the subject to the source file's stem applies only
when the DECODED subject is empty; when the subject decodes to a non-empty
string, the base folder uses the sanitized subject — independently of the
source path — so a dots-only subject yields the placeholder folder 未命名,
not the source file's base name (which is used only for an empty subject). -/
theorem claim10_subject_fallback :
    (∀ (opts : Options) (out emlPath emlPath' : List Char) (msg : Msg) (s : String),
      msg.subject = some s → s ≠ "" →
      baseDirOf opts out emlPath msg =
        (if opts.createSubfolder then out ++ '/' :: sanitizeChars s.data else out) ∧
      baseDirOf opts out emlPath msg = baseDirOf opts out emlPath' msg) ∧
    baseDirOf ⟨true, false⟩ "/out".data "msg001.eml".data ⟨some "...", []⟩ = "/out/未命名".data ∧
    baseDirOf ⟨true, false⟩ "/out".data "msg001.eml".data ⟨some "...", []⟩ ≠ "/out/msg001".data ∧
    baseDirOf ⟨true, false⟩ "/out".data "msg001.eml".data ⟨none, []⟩ = "/out/msg001".data := by
  refine ⟨?_, by decide, by decide, by decide⟩
  intro opts out emlPath emlPath' msg s hs hne
  have heff : ∀ path : List Char, effectiveSubject path msg = s := by
    intro path
    unfold effectiveSubject
    rw [hs]
    dsimp only [Option.getD]
    rw [decode_header_text, if_neg hne]
  constructor
  · unfold baseDirOf
    rw [heff emlPath]
  · unfold baseDirOf
    rw [heff emlPath, heff emlPath']

/-- C10, witness: the non-empty-subject theorem applied to a concrete
message and two different source paths. -/
theorem claim10_witness :
    baseDirOf ⟨true, false⟩ "/out".data "a/b.eml".data ⟨some "Q4 Report", []⟩ =
      "/out/Q4 Report".data := by
  have h := (claim10_subject_fallback.1 ⟨true, false⟩ "/out".data "a/b.eml".data
    "c/d.eml".data ⟨some "Q4 Report", []⟩ "Q4 Report" rfl (by decide)).1
  rw [h]
  decide


end EmlExtractor
